import Mathlib

/-!
Shallow embedding of the core of the `graceful` toolkit
(`src/graceful/serializers.py`, `src/graceful/fields.py`,
`src/graceful/parameters.py`, `src/graceful/resources/base.py`,
`src/graceful/validators.py`, `src/graceful/errors.py`).

Representations and internal objects are JSON-like Python values, modelled
by `PyVal`.  Python dictionaries are modelled as association lists with
dictionary insertion semantics (`odInsert`): inserting an existing key
replaces the value at its original position, a new key is appended.  This
matches CPython's insertion-ordered `dict`/`OrderedDict`.
-/

namespace Graceful

/-- JSON-like Python value (the only shapes the engine manipulates).
`none` is Python's `None`.  Floats are not needed by any embedded code path
we evaluate and are omitted. -/
inductive PyVal where
  | none : PyVal
  | bool : Bool → PyVal
  | int : Int → PyVal
  | str : String → PyVal
  | list : List PyVal → PyVal
  | dict : List (String × PyVal) → PyVal

/-- Python exception kinds relevant to the engine.  `ValidationError`
(graceful/errors.py) is a subclass of `ValueError`, so an
`except ValueError` clause catches both; we track the subclass separately so
`except ValidationError` clauses can be embedded faithfully. -/
inductive PyErr where
  | valueError : String → PyErr
  | validationError : String → PyErr
  | typeError : String → PyErr
  | keyError : String → PyErr
deriving DecidableEq, Repr

/-- Embeds `str(err)`: the message carried by an exception. -/
def PyErr.msg : PyErr → String
  | .valueError m => m
  | .validationError m => m
  | .typeError m => m
  | .keyError m => m

/-- Would this exception be caught by `except ValueError`?
(`ValidationError` subclasses `ValueError`.) -/
def PyErr.isValueError : PyErr → Bool
  | .valueError _ => true
  | .validationError _ => true
  | _ => false

/-- Python `dict` insertion on an association list: replace the value at the
original position if the key exists, append otherwise. -/
def odInsert {α : Type} : List (String × α) → String → α → List (String × α)
  | [], k, v => [(k, v)]
  | (k', v') :: rest, k, v =>
      if k' = k then (k', v) :: rest else (k', v') :: odInsert rest k v

/-- Build a Python `dict` from a list of `(key, value)` pairs
(`dict(pairs)` / `OrderedDict(pairs)`). -/
def odFromList {α : Type} (l : List (String × α)) : List (String × α) :=
  l.foldl (fun acc kv => odInsert acc kv.1 kv.2) []

/-- Keys of a modelled dictionary, in order. -/
def dkeys {α : Type} (m : List (String × α)) : List String :=
  m.map Prod.fst

/-- Dictionary lookup (`m[k]` / `m.get(k)`) on the association-list model:
the first binding wins (keys are unique in every dictionary we build). -/
def dlookup {α : Type} : List (String × α) → String → Option α
  | [], _ => Option.none
  | (k, v) :: rest, key => if k = key then some v else dlookup rest key

mutual

/-- Python `repr()` restricted to the value shapes we evaluate
(strings render with single quotes, escaping ignored since no evaluated
input contains quotes). -/
def pyReprStr : PyVal → String
  | .none => "None"
  | .bool b => if b then "True" else "False"
  | .int n => toString n
  | .str s => "'" ++ s ++ "'"
  | .list xs => "[" ++ pyReprStrList xs ++ "]"
  | .dict xs => "\x7b" ++ pyReprStrDict xs ++ "\x7d"

/-- comma-separated `repr()`s of list elements. -/
def pyReprStrList : List PyVal → String
  | [] => ""
  | [x] => pyReprStr x
  | x :: rest => pyReprStr x ++ ", " ++ pyReprStrList rest

/-- comma-separated `repr()`s of dict items. -/
def pyReprStrDict : List (String × PyVal) → String
  | [] => ""
  | [(k, v)] => "'" ++ k ++ "': " ++ pyReprStr v
  | (k, v) :: rest => "'" ++ k ++ "': " ++ pyReprStr v ++ ", " ++ pyReprStrDict rest

end

/-- Python `str()`: identity on strings, `repr()`-like elsewhere. -/
def pyToString : PyVal → String
  | .str s => s
  | v => pyReprStr v

/-- Whitespace stripped by Python `int()` around a numeric literal
(ASCII whitespace suffices for the inputs we model). -/
def isPySpace (c : Char) : Bool :=
  c = ' ' || c = '\t' || c = '\n' || c = '\r'

/-- Strip leading and trailing whitespace from a character list. -/
def stripChars (cs : List Char) : List Char :=
  ((cs.dropWhile isPySpace).reverse.dropWhile isPySpace).reverse

/-- Numeric value of a list of decimal digits. -/
def digitsVal (ds : List Char) : Int :=
  Int.ofNat (ds.foldl (fun acc c => acc * 10 + (c.toNat - 48)) 0)

/-- Python `int()` on a string: optional surrounding whitespace, optional
sign, nonempty run of decimal digits; otherwise `ValueError`. -/
def pyIntOfString (s : String) : Except PyErr Int :=
  match stripChars s.toList with
  | '-' :: ds =>
      if ds.length > 0 && ds.all Char.isDigit then .ok (-(digitsVal ds))
      else .error (.valueError ("invalid literal for int() with base 10: " ++ pyReprStr (.str s)))
  | '+' :: ds =>
      if ds.length > 0 && ds.all Char.isDigit then .ok (digitsVal ds)
      else .error (.valueError ("invalid literal for int() with base 10: " ++ pyReprStr (.str s)))
  | ds =>
      if ds.length > 0 && ds.all Char.isDigit then .ok (digitsVal ds)
      else .error (.valueError ("invalid literal for int() with base 10: " ++ pyReprStr (.str s)))

/-- Python `int()` applied to one of our values: ints pass through, booleans
become 0/1, strings are parsed in base 10, everything else is a
`TypeError`.  Matches `IntField.from_representation` /
`IntField.to_representation` / `IntParam.value` call sites. -/
def pyInt : PyVal → Except PyErr Int
  | .int n => .ok n
  | .bool b => .ok (if b then 1 else 0)
  | .str s => pyIntOfString s
  | .none => .error (.typeError "int() argument must be a string, a bytes-like object or a real number, not 'NoneType'")
  | .list _ => .error (.typeError "int() argument must be a string, a bytes-like object or a real number, not 'list'")
  | .dict _ => .error (.typeError "int() argument must be a string, a bytes-like object or a real number, not 'dict'")

/-- Python iteration (`for item in attribute`): lists yield elements, strings
yield one-character strings, dicts yield their keys, anything else raises
`TypeError`. -/
def pyIter : PyVal → Except PyErr (List PyVal)
  | .list xs => .ok xs
  | .str s => .ok (s.toList.map (fun c => .str (String.mk [c])))
  | .dict m => .ok (m.map (fun kv => .str kv.1))
  | _ => .error (.typeError "object is not iterable")

/-! ## Fields (`graceful/fields.py`) -/

/-- The attributes of a `BaseField` instance that the conversion engine
reads, together with the two coercion methods of the concrete field class.
`BaseField.__init__` accepts `details, label, source, validators, many,
read_only` — and nothing else (there is no `write_only` argument). -/
structure Field where
  source : Option String := Option.none
  many : Bool := false
  read_only : Bool := false
  fromRepr : PyVal → Except PyErr PyVal
  toRepr : PyVal → Except PyErr PyVal
  validators : List (PyVal → Except PyErr Unit) := []

/-- Embeds `BaseField.validate`: run every validator in order on the value; the
first exception propagates. -/
def fieldValidate (f : Field) (v : PyVal) : Except PyErr Unit :=
  f.validators.forM (fun val => val v)

/-- Embeds `graceful.serializers._source(name, field)`:
`name` when `field.source == '*'`, else `field.source or name`
(so an unset or empty source falls back to the field name). -/
def sourceName (name : String) (f : Field) : String :=
  match f.source with
  | Option.none => name
  | some s => if s = "*" then name else if s = "" then name else s

/-- The attribute name passed to `get_attribute` by `to_representation`:
`field.source or name` (`'*'` is kept, it is resolved by `get_attribute`). -/
def attrOf (name : String) (f : Field) : String :=
  match f.source with
  | Option.none => name
  | some s => if s = "" then name else s

/-- Embeds `validators.min_validator(m)`: raises `ValidationError` when
`value < min_value`; a Python `<` between a non-number and an int is a
`TypeError` (booleans compare as 0/1). -/
def min_validator (m : Int) : PyVal → Except PyErr Unit
  | .int n =>
      if n < m then .error (.validationError (toString n ++ " is not >= " ++ toString m))
      else .ok ()
  | .bool b =>
      if (if b then (1 : Int) else 0) < m then
        .error (.validationError (pyReprStr (.bool b) ++ " is not >= " ++ toString m))
      else .ok ()
  | _ => .error (.typeError "unorderable types")

/-- Embeds `validators.max_validator(m)`: raises `ValidationError` when
`value > max_value`. -/
def max_validator (m : Int) : PyVal → Except PyErr Unit
  | .int n =>
      if n > m then .error (.validationError (toString n ++ " is not <= " ++ toString m))
      else .ok ()
  | .bool b =>
      if (if b then (1 : Int) else 0) > m then
        .error (.validationError (pyReprStr (.bool b) ++ " is not <= " ++ toString m))
      else .ok ()
  | _ => .error (.typeError "unorderable types")

/-- Embeds `RawField`: both conversions are the identity. -/
def rawField : Field :=
  { fromRepr := fun v => .ok v, toRepr := fun v => .ok v }

/-- Embeds `RawField(..., read_only=True)`. -/
def rawFieldReadOnly : Field :=
  { rawField with read_only := true }

/-- Embeds `StringField`: both conversions are Python `str()`. -/
def stringField : Field :=
  { fromRepr := fun v => .ok (.str (pyToString v)),
    toRepr := fun v => .ok (.str (pyToString v)) }

/-- Embeds `StringField(..., many=True)`. -/
def stringFieldMany : Field :=
  { stringField with many := true }

/-- Embeds `IntField` with optional `min_value`: coercions are Python `int()`, and
`min_value` is appended to the validator list at construction time
(`IntField.__init__`). -/
def intFieldMin (m : Int) : Field :=
  { fromRepr := fun v => (pyInt v).map PyVal.int,
    toRepr := fun v => (pyInt v).map PyVal.int,
    validators := [min_validator m] }

/-- Embeds `BoolField._TRUE_VALUES = {'True', 'true', 'TRUE', 'T', 't', '1', 1, True}`
(fields.py line 214).  Under Python set semantics `1` and `True` are one
element; membership tests with `==` treat them alike, which `pyBoolMember`
reproduces. -/
def boolTrueVals : List PyVal :=
  [.str "True", .str "true", .str "TRUE", .str "T", .str "t", .str "1", .int 1]

/-- Embeds `BoolField._FALSE_VALUES = {'False', 'false', 'FALSE', 'F', 'f' '0', 0, 0.0, False}`
(fields.py line 215).  The adjacent string literals `'f' '0'` concatenate to
the single token `'f0'`; `0`, `0.0` and `False` are one set element under
Python equality. -/
def boolFalseVals : List PyVal :=
  [.str "False", .str "false", .str "FALSE", .str "F", .str "f0", .int 0]

/-- Python `==` membership in one of the boolean token sets: numeric values
(`bool`/`int`) compare by numeric value, everything else structurally.
Only scalars occur in the sets, so list/dict elements never arise. -/
def pyBoolMember (data : PyVal) (set : List PyVal) : Bool :=
  set.any (fun x =>
    match data, x with
    | .bool b, .int n => (if b then (1 : Int) else 0) = n
    | .int n, .int n' => n = n'
    | .bool b, .bool b' => b = b'
    | .int n, .bool b => n = (if b then (1 : Int) else 0)
    | .str s, .str s' => s = s'
    | _, _ => false)

/-- Embeds `BoolField.from_representation` with the default token sets.  Note the
error message: the format string uses `{{values}}`, an escaped brace pair,
so the message contains the literal text `\x7bvalues\x7d`. -/
def boolFieldFromRepresentation (data : PyVal) : Except PyErr PyVal :=
  if pyBoolMember data boolTrueVals then .ok (.bool true)
  else if pyBoolMember data boolFalseVals then .ok (.bool false)
  else .error (.valueError "bool type value must be one of \x7bvalues\x7d")

/-! ## Serializer engine (`graceful/serializers.py`) -/

/-- A serializer's field registry: the items of the `OrderedDict` built by
`MetaSerializer._get_fields` (keys are distinct by construction). -/
abbrev Fields := List (String × Field)

/-- A representation or internal-object dictionary. -/
abbrev ObjDict := List (String × PyVal)

/-- Embeds `BaseSerializer.get_attribute(obj, attr)`: `'*'` returns the whole
object; a mapping is read with `obj.get(attr, None)`; on any other value
`getattr(obj, attr, None)` yields `None` for the JSON-like values we model
(they carry no data attributes). -/
def get_attribute (obj : PyVal) (attr : String) : PyVal :=
  if attr = "*" then obj
  else
    match obj with
    | .dict m => ((dlookup m attr).getD .none)
    | _ => .none

/-- One field's entry in `BaseSerializer.to_representation`: a `None`
attribute yields `[]` (many) or `None` without calling the field; a many
field converts each element of the iterated attribute; otherwise the single
value is converted.  Exceptions from the field or from iteration
propagate. -/
def isPyNone : PyVal → Bool
  | .none => true
  | _ => false

/-- Left-to-right effectful map (a Python `for` loop building a list): the
first exception propagates. -/
def mapExcept {β : Type} (f : β → Except PyErr PyVal) : List β → Except PyErr (List PyVal)
  | [] => .ok []
  | x :: rest =>
      match f x with
      | .error e => .error e
      | .ok v => (mapExcept f rest).map (fun vs => v :: vs)

def toReprEntry (f : Field) (attrVal : PyVal) : Except PyErr PyVal :=
  if isPyNone attrVal then
    .ok (if f.many then .list [] else .none)
  else if f.many then
    match pyIter attrVal with
    | .error e => .error e
    | .ok items => (mapExcept f.toRepr items).map PyVal.list
  else
    f.toRepr attrVal

/-- Main loop of `BaseSerializer.to_representation`, accumulating the
`representation` dict. -/
def toRepresentationAux : Fields → PyVal → ObjDict → Except PyErr ObjDict
  | [], _, acc => .ok acc
  | (name, f) :: rest, obj, acc =>
      match toReprEntry f (get_attribute obj (attrOf name f)) with
      | .error e => .error e
      | .ok entry => toRepresentationAux rest obj (odInsert acc name entry)

/-- Embeds `BaseSerializer.to_representation(obj)`. -/
def toRepresentation (fields : Fields) (obj : PyVal) : Except PyErr ObjDict :=
  toRepresentationAux fields obj []

/-- The payload of a `DeserializationError` (`graceful/errors.py`): the four
violation collections.  `invalid` and `failed` are dictionaries keyed by
field name; an argument left as Python `None` is modelled by `[]`. -/
structure DeserError where
  missing : List String := []
  forbidden : List String := []
  invalid : List (String × String) := []
  failed : List (String × String) := []

/-- Result of `BaseSerializer.validate`: normal return, a raised
`DeserializationError`, or any other uncaught exception (`crash`). -/
inductive ValidateResult where
  | ok : ValidateResult
  | error : DeserError → ValidateResult
  | crash : PyErr → ValidateResult

/-- The `sources` dict of `BaseSerializer.validate`:
`{_source(name, field): field}` (a dict comprehension: first-insertion
order, later duplicate keys overwrite the value). -/
def sourcesOf (fields : Fields) : List (String × Field) :=
  odFromList (fields.map (fun nf => (sourceName nf.1 nf.2, nf.2)))

/-- The `sources_to_field_names` dict built at the raise site of
`validate`: `{_source(name, field): name}`. -/
def sourcesToFieldNames (fields : Fields) : List (String × String) :=
  odFromList (fields.map (fun nf => (sourceName nf.1 nf.2, nf.1)))

/-- The `_` remapping applied to `missing`/`forbidden`/`invalid` before the
error is raised: `sources_to_field_names.get(name, name)`. -/
def remapName (fields : Fields) (n : String) : String :=
  ((dlookup (sourcesToFieldNames fields) n).getD n)

/-- The `missing` list of `validate`: source names of non-read-only fields
absent from `object_dict`, empty whenever `partial` is set
(`all((not partial, name not in object_dict, not field.read_only))`). -/
def missingPart (fields : Fields) (objectDict : ObjDict) (part : Bool) : List String :=
  ((sourcesOf fields).filter
    (fun sf => !part && (dlookup objectDict sf.1).isNone && !sf.2.read_only)).map Prod.fst

/-- The `forbidden` list of `validate`.  The comprehension builds the tuple
`(name not in sources, sources[name].read_only)` eagerly, so a key of
`object_dict` that is not a source raises `KeyError` instead of being
reported. -/
def forbiddenPart (sources : List (String × Field)) : ObjDict → Except PyErr (List String)
  | [] => .ok []
  | (name, _) :: rest =>
      match dlookup sources name with
      | Option.none => .error (.keyError name)
      | some f =>
          (forbiddenPart sources rest).map (fun l => if f.read_only then name :: l else l)

/-- The `invalid` dict of `validate`: run `sources[name].validate(value)` on
every entry; `ValidationError` is recorded, any other exception
propagates. -/
def invalidPart (sources : List (String × Field)) : ObjDict → Except PyErr (List (String × String))
  | [] => .ok []
  | (name, v) :: rest =>
      match dlookup sources name with
      | Option.none => .error (.keyError name)
      | some f =>
          match fieldValidate f v with
          | .ok _ => invalidPart sources rest
          | .error (.validationError m) =>
              (invalidPart sources rest).map (fun l => (name, m) :: l)
          | .error e => .error e

/-- Embeds `BaseSerializer.validate(object_dict, partial=False)`. -/
def validate (fields : Fields) (objectDict : ObjDict) (part : Bool) : ValidateResult :=
  match forbiddenPart (sourcesOf fields) objectDict with
  | .error e => .crash e
  | .ok forbidden =>
      match invalidPart (sourcesOf fields) objectDict with
      | .error e => .crash e
      | .ok invalid =>
          if (missingPart fields objectDict part).isEmpty &&
              forbidden.isEmpty && invalid.isEmpty then .ok
          else
            .error
              { missing := (missingPart fields objectDict part).map (remapName fields),
                forbidden := forbidden.map (remapName fields),
                invalid := odFromList (invalid.map (fun nm => (remapName fields nm.1, nm.2))) }

/-- Result of `BaseSerializer.from_representation`: the internal object, a
raised `DeserializationError`, or any other uncaught exception. -/
inductive DeserResult where
  | ok : ObjDict → DeserResult
  | error : DeserError → DeserResult
  | crash : PyErr → DeserResult

/-- Main loop of `from_representation`: declared fields absent from the
representation are skipped; present ones are coerced into `object_dict`
under their source name; a `ValueError` (including its `ValidationError`
subclass) is recorded in `failed`, any other exception propagates. -/
def coerceLoop : Fields → ObjDict → ObjDict → List (String × String) →
    Except PyErr (ObjDict × List (String × String))
  | [], _, objectDict, failed => .ok (objectDict, failed)
  | (name, f) :: rest, rep, objectDict, failed =>
      match dlookup rep name with
      | Option.none => coerceLoop rest rep objectDict failed
      | some raw =>
          match f.fromRepr raw with
          | .ok v => coerceLoop rest rep (odInsert objectDict (sourceName name f) v) failed
          | .error e =>
              if e.isValueError then coerceLoop rest rep objectDict (failed ++ [(name, e.msg)])
              else .error e

/-- Embeds `BaseSerializer.from_representation(representation)`.  `validate` is
invoked only when at least one coercion failed; a `DeserializationError` it
raises is re-raised with `err.failed` set, and if it does not raise, a bare
`DeserializationError` carrying only `failed` is raised. -/
def fromRepresentation (fields : Fields) (rep : ObjDict) : DeserResult :=
  match coerceLoop fields rep [] [] with
  | .error e => .crash e
  | .ok (objectDict, failed) =>
      if failed.isEmpty then .ok objectDict
      else
        match validate fields objectDict false with
        | .ok => .error { failed := failed }
        | .error d => .error { d with failed := failed }
        | .crash e => .crash e

/-! ## Declaration registry (`MetaSerializer._get_fields` and
`MetaResource._get_params`)

Both metaclasses build the registry the same way: the declarations found in
the class namespace (in declaration order) are collected, the registries of
the base classes are prepended iterating `reversed(bases)` (so the final
list is base₁ ++ base₂ ++ … ++ namespace), and the result is passed to
`OrderedDict(...)`, whose duplicate-key semantics keep the earliest
position and the latest value. -/

/-- Registry construction shared by `_get_fields` / `_get_params`:
`bases` are the base-class registries in declaration order, `decls` the
current class's declarations in declaration order. -/
def getFields {α : Type} (bases : List (List (String × α))) (decls : List (String × α)) :
    List (String × α) :=
  odFromList (bases.foldr (fun b acc => b ++ acc) decls)

/-! ## Parameter engine (`graceful/parameters.py`,
`BaseResource.require_params` in `graceful/resources/base.py`) -/

/-- The attributes of a `BaseParam` instance read by `require_params`,
together with the `value()` handler of the concrete parameter class. -/
structure Param where
  required : Bool := false
  default : Option String := Option.none
  many : Bool := false
  value : String → Except PyErr PyVal
  validators : List (PyVal → Except PyErr Unit) := []

/-- Embeds `BaseParam.validated_value(raw_value)`: decode with `value()` and
run every validator on the decoded value. -/
def validatedValue (p : Param) (raw : String) : Except PyErr PyVal := do
  let v ← p.value raw
  p.validators.forM (fun val => val v)
  pure v

/-- The query string handed to `require_params`: each present parameter name
maps to its (nonempty, in falcon) list of raw occurrences. -/
abbrev Query := List (String × List String)

/-- Python truthiness of `param.default` (`None` and the empty string are
falsy). -/
def defaultTruthy : Option String → Bool
  | Option.none => false
  | some s => !s.toList.isEmpty

/-- Outcome of `BaseResource.require_params`: the decoded parameter dict, a
falcon `HTTPMissingParam` naming all missing required parameters, a falcon
`HTTPInvalidParam` naming one parameter, or any other uncaught exception.
The source joins the missing names from a Python `set` whose iteration
order is unspecified; we list them in registry order. -/
inductive ParamsResult where
  | ok : List (String × PyVal) → ParamsResult
  | missingParams : List String → ParamsResult
  | invalidParam : String → String → ParamsResult
  | crash : PyErr → ParamsResult

/-- All required parameters of the registry absent from the query — the set
`{p for p in self.params if self.params[p].required} - set(req.params)`
computed at the raise site of `require_params`, in registry order. -/
def missingNames (registry : List (String × Param)) (req : Query) : List String :=
  (registry.filter (fun np => np.2.required && (dlookup req np.1).isNone)).map Prod.fst

/-- What `require_params` does with one parameter before any output is
stored. -/
inductive ParamStep where
  | skip : ParamStep
  | keep : PyVal → ParamStep
  | missingHere : ParamStep
  | invalid : String → ParamStep
  | crashed : PyErr → ParamStep

/-- Decoding of the raw occurrences of one present or defaulted parameter
inside `require_params`:

* `many`: `req.get_param_as_list(name, param.validated_value)` applies the
  handler to every occurrence (falcon turns a `ValueError` — including
  `ValidationError` — into `HTTPInvalidParam`); when the parameter is
  absent the fallback `[param.default and param.validated_value(param.default)]`
  decodes the default once, and the `except` clauses of `require_params`
  turn `ValueError`/`ValidationError` into `HTTPInvalidParam`.  The
  `container` is the default `list`.
* otherwise: `param.validated_value(req.get_param(name, default=param.default))`.
  falcon leaves unspecified which occurrence `get_param` returns for a
  repeated parameter; the model takes the first. -/
def paramStep (req : Query) (name : String) (p : Param) : ParamStep :=
  if (dlookup req name).isNone && p.required then .missingHere
  else if (dlookup req name).isSome || defaultTruthy p.default then
    if p.many then
      match dlookup req name with
      | some occurrences =>
          match mapExcept (validatedValue p) occurrences with
          | .ok vs => .keep (.list vs)
          | .error e => if e.isValueError then .invalid e.msg else .crashed e
      | Option.none =>
          match p.default with
          | some d =>
              match validatedValue p d with
              | .ok v => .keep (.list [v])
              | .error e => if e.isValueError then .invalid e.msg else .crashed e
          | Option.none => .crashed (.typeError "NoneType")
    else
      match ((dlookup req name).bind List.head?).orElse (fun _ => p.default) with
      | some raw =>
          match validatedValue p raw with
          | .ok v => .keep v
          | .error e => if e.isValueError then .invalid e.msg else .crashed e
      | Option.none => .crashed (.typeError "NoneType")
  else .skip

/-- Did this step neither raise nor record a problem? -/
def ParamStep.isOk : ParamStep → Bool
  | .skip => true
  | .keep _ => true
  | _ => false

/-- Main loop of `require_params` over the full registry. -/
def requireParamsAux (registry : List (String × Param)) (req : Query) :
    List (String × Param) → List (String × PyVal) → ParamsResult
  | [], acc => .ok acc
  | (name, p) :: rest, acc =>
      match paramStep req name p with
      | .skip => requireParamsAux registry req rest acc
      | .keep v => requireParamsAux registry req rest (acc ++ [(name, v)])
      | .missingHere => .missingParams (missingNames registry req)
      | .invalid m => .invalidParam name m
      | .crashed e => .crash e

/-- Embeds `BaseResource.require_params(req)`. -/
def requireParams (registry : List (String × Param)) (req : Query) : ParamsResult :=
  requireParamsAux registry req registry []

/-- Embeds `StringParam`: `value()` returns the raw string as-is. -/
def stringParam : Param :=
  { value := fun raw => .ok (.str raw) }

/-- Embeds `IntParam`: `value()` is Python `int()` on the raw string. -/
def intParam : Param :=
  { value := fun raw => (pyInt (.str raw)).map PyVal.int }

/-! ## Result classifiers (decidable views used in theorem hypotheses) -/

/-- Did `from_representation` raise a `DeserializationError`? -/
def DeserResult.raised : DeserResult → Bool
  | .error _ => true
  | _ => false

/-- Did `from_representation` propagate a non-`DeserializationError`
exception? -/
def DeserResult.crashed : DeserResult → Bool
  | .crash _ => true
  | _ => false

/-- Did `validate` propagate a non-`DeserializationError` exception? -/
def ValidateResult.crashed : ValidateResult → Bool
  | .crash _ => true
  | _ => false

/-- Is this outcome the aggregated missing-parameters failure? -/
def ParamsResult.isMissing : ParamsResult → Bool
  | .missingParams _ => true
  | _ => false

/-- Is this step the aggregated-missing raise site? -/
def ParamStep.isMissingHere : ParamStep → Bool
  | .missingHere => true
  | _ => false

/-- Does this field's coercion of this raw value raise a `ValueError`
(the condition recorded in `failed` by `from_representation`)? -/
def coercionFailed (f : Field) (raw : PyVal) : Bool :=
  match f.fromRepr raw with
  | .error e => e.isValueError
  | .ok _ => false

/-- Does some declared field present in the representation fail coercion
with a `ValueError`? -/
def repHasFailure (fields : Fields) (rep : ObjDict) : Bool :=
  fields.any (fun nf =>
    match dlookup rep nf.1 with
    | some raw => coercionFailed nf.2 raw
    | Option.none => false)

/-! ## Concrete serializers, representations and registries used for
evaluation (mirroring the repository's own test fixtures) -/

/-- Serializer of the aggregation scenario: a required (plain) field, and an
`IntField` with `min_value=0`. -/
def aggFields : Fields :=
  [("name", rawField), ("num", intFieldMin 0)]

/-- Representation that omits required `name`, contains the unknown key
`unknown`, and gives `num` a value that coerces but fails its validator. -/
def aggRep : ObjDict :=
  [("unknown", .int 1), ("num", .int (-5))]

/-- Serializer with one `StringField(many=True)` (the shape of
`test_serializer_many_validation`). -/
def manyFields : Fields :=
  [("up", stringFieldMany)]

/-- The many-valued wire entry `["aa", "bb"]`. -/
def manyRep : ObjDict :=
  [("up", .list [.str "aa", .str "bb"])]

/-- Serializer of `test_serializer_read_only_write_only_serialization`,
as close as `BaseField.__init__` allows: the `write_only=True` argument the
test passes does not exist, so `writeonly` is a plain field. -/
def rwFields : Fields :=
  [("readonly", rawFieldReadOnly), ("writeonly", rawField)]

/-- Serializer with a single read-only field. -/
def roFields : Fields :=
  [("ro", rawFieldReadOnly)]

/-- Serializer with a single wildcard-source (`source='*'`) field. -/
def starFields : Fields :=
  [("all", { rawField with source := some "*" })]

/-- Parameter registry whose first parameter decodes badly and whose second
is required: `bad` is an `IntParam`, `need` a required `StringParam`. -/
def c5Registry : List (String × Param) :=
  [("bad", intParam), ("need", { stringParam with required := true })]

/-- Query for `c5Registry`: `bad` present with a non-numeric value, `need`
absent. -/
def c5Query : Query :=
  [("bad", ["x"])]

/-- Registry with one optional parameter followed by two required ones. -/
def c5wRegistry : List (String × Param) :=
  [("ok", stringParam),
   ("m1", { stringParam with required := true }),
   ("m2", { stringParam with required := true })]

/-- Query for `c5wRegistry`: only `ok` supplied. -/
def c5wQuery : Query :=
  [("ok", ["v"])]

/-- Embeds `IntParam('...', default='10')`. -/
def intParamDefault10 : Param :=
  { intParam with default := some "10" }

/-- Embeds `RawField(..., many=True)`. -/
def rawFieldMany : Field :=
  { rawField with many := true }

/-- Serializer with one scalar and one many raw field. -/
def c10Fields : Fields :=
  [("a", rawField), ("m", rawFieldMany)]

/-! ## Theorems -/

/-! ### Dictionary lemmas -/

theorem dlookup_eq_none {α : Type} (m : List (String × α)) (k : String)
    (h : k ∉ dkeys m) : dlookup m k = Option.none := by
  induction m with
  | nil => rfl
  | cons kv rest ih =>
      obtain ⟨k', v'⟩ := kv
      simp only [dkeys, List.map_cons, List.mem_cons] at h
      push_neg at h
      simp only [dlookup]
      rw [if_neg (fun he => h.1 he.symm)]
      exact ih (by simpa [dkeys] using h.2)

theorem mem_odInsert {α : Type} (m : List (String × α)) (k : String) (v : α)
    (kv : String × α) (h : kv ∈ odInsert m k v) : kv ∈ m ∨ kv = (k, v) := by
  induction m with
  | nil => simpa [odInsert] using h
  | cons kv' rest ih =>
      obtain ⟨k', v'⟩ := kv'
      simp only [odInsert] at h
      by_cases hk : k' = k
      · rw [if_pos hk] at h
        rcases List.mem_cons.mp h with h | h
        · subst h; right; rw [hk]
        · left; exact List.mem_cons_of_mem _ h
      · rw [if_neg hk] at h
        rcases List.mem_cons.mp h with h | h
        · subst h; left; exact List.mem_cons_self _ _
        · rcases ih h with h | h
          · left; exact List.mem_cons_of_mem _ h
          · right; exact h

theorem mem_foldl_odInsert {α : Type} (l : List (String × α)) :
    ∀ (acc : List (String × α)) (kv : String × α),
      kv ∈ l.foldl (fun a p => odInsert a p.1 p.2) acc → kv ∈ acc ∨ kv ∈ l := by
  induction l with
  | nil => intro acc kv h; exact Or.inl h
  | cons p rest ih =>
      intro acc kv h
      simp only [List.foldl_cons] at h
      rcases ih (odInsert acc p.1 p.2) kv h with h | h
      · rcases mem_odInsert _ _ _ _ h with h | h
        · exact Or.inl h
        · subst h; right; simp
      · right; exact List.mem_cons_of_mem _ h

theorem mem_odFromList {α : Type} (l : List (String × α)) (kv : String × α)
    (h : kv ∈ odFromList l) : kv ∈ l := by
  rcases mem_foldl_odInsert l [] kv h with h | h
  · simp at h
  · exact h

theorem odInsert_append {α : Type} (m : List (String × α)) (k : String) (v : α)
    (h : k ∉ dkeys m) : odInsert m k v = m ++ [(k, v)] := by
  induction m with
  | nil => rfl
  | cons kv rest ih =>
      obtain ⟨k', v'⟩ := kv
      simp only [dkeys, List.map_cons, List.mem_cons] at h
      push_neg at h
      simp only [odInsert]
      rw [if_neg (fun he => h.1 he.symm)]
      simp [ih (by simpa [dkeys] using h.2)]

theorem dlookup_append_right {α : Type} (m m' : List (String × α)) (k : String)
    (h : dlookup m k = Option.none) : dlookup (m ++ m') k = dlookup m' k := by
  induction m with
  | nil => rfl
  | cons kv rest ih =>
      obtain ⟨k', v'⟩ := kv
      simp only [dlookup, List.cons_append] at h ⊢
      by_cases hk : k' = k
      · rw [if_pos hk] at h; exact absurd h (by simp)
      · rw [if_neg hk] at h ⊢
        exact ih h

theorem dlookup_odInsert_self {α : Type} (m : List (String × α)) (k : String) (v : α) :
    dlookup (odInsert m k v) k = some v := by
  induction m with
  | nil => simp [odInsert, dlookup]
  | cons kv rest ih =>
      obtain ⟨k', v'⟩ := kv
      simp only [odInsert]
      by_cases hk : k' = k
      · rw [if_pos hk]; simp [dlookup, hk]
      · rw [if_neg hk]; simp [dlookup, hk, ih]

theorem dlookup_odInsert_ne {α : Type} (m : List (String × α)) (k k' : String) (v : α)
    (h : k' ≠ k) : dlookup (odInsert m k' v) k = dlookup m k := by
  induction m with
  | nil => simp [odInsert, dlookup, fun he => h he]
  | cons kv rest ih =>
      obtain ⟨k₀, v₀⟩ := kv
      simp only [odInsert]
      by_cases hk : k₀ = k'
      · rw [if_pos hk]
        subst hk
        simp only [dlookup]
        rw [if_neg h, if_neg h]
      · rw [if_neg hk]
        simp only [dlookup]
        by_cases h₀ : k₀ = k
        · rw [if_pos h₀, if_pos h₀]
        · rw [if_neg h₀, if_neg h₀, ih]

theorem mem_dkeys_odInsert {α : Type} (m : List (String × α)) (k : String) (v : α)
    (k' : String) :
    k' ∈ dkeys (odInsert m k v) ↔ k' ∈ dkeys m ∨ k' = k := by
  induction m with
  | nil => simp [odInsert, dkeys]
  | cons kv rest ih =>
      obtain ⟨k₀, v₀⟩ := kv
      simp only [odInsert]
      by_cases hk : k₀ = k
      · rw [if_pos hk]
        subst hk
        simp only [dkeys, List.map_cons, List.mem_cons]
        constructor
        · rintro (h | h)
          · right; exact h
          · left; right; exact h
        · rintro ((h | h) | h)
          · left; exact h
          · right; exact h
          · left; exact h
      · rw [if_neg hk]
        simp only [dkeys, List.map_cons, List.mem_cons] at ih ⊢
        rw [ih]
        tauto

/-- Folding `odInsert` over fresh, distinct keys is plain appending. -/
theorem foldl_odInsert_append {α : Type} (l : List (String × α)) :
    ∀ acc : List (String × α),
      (∀ k ∈ dkeys l, k ∉ dkeys acc) → (dkeys l).Nodup →
      l.foldl (fun a p => odInsert a p.1 p.2) acc = acc ++ l := by
  induction l with
  | nil => intro acc _ _; simp
  | cons p rest ih =>
      intro acc hd hn
      obtain ⟨k, v⟩ := p
      simp only [List.foldl_cons]
      have hk : k ∉ dkeys acc := hd k (by simp [dkeys])
      rw [odInsert_append acc k v hk]
      simp only [dkeys, List.map_cons, List.nodup_cons] at hn
      have hfresh : ∀ k₀ ∈ dkeys rest, k₀ ∉ dkeys (acc ++ [(k, v)]) := by
        intro k₀ hk₀
        have hmem : k₀ ∈ dkeys ((k, v) :: rest) := by
          simp only [dkeys, List.map_cons, List.mem_cons]
          right
          simpa [dkeys] using hk₀
        have hacc : k₀ ∉ dkeys acc := hd k₀ hmem
        have hne : k₀ ≠ k := fun he => hn.1 (he ▸ hk₀)
        simp only [dkeys, List.map_append, List.mem_append]
        rintro (h | h)
        · exact hacc (by simpa [dkeys] using h)
        · simp only [List.map_cons, List.map_nil, List.mem_singleton] at h
          exact hne h
      rw [ih (acc ++ [(k, v)]) hfresh (by simpa [dkeys] using hn.2)]
      simp

/-- Embeds `OrderedDict(pairs)` on duplicate-free keys: the identity. -/
theorem odFromList_eq_self {α : Type} (l : List (String × α))
    (hn : (dkeys l).Nodup) : odFromList l = l := by
  have := foldl_odInsert_append l [] (by simp [dkeys]) hn
  simpa [odFromList] using this

/-! ### C6 helper: `paramStep` reports `missingHere` exactly for an absent
required parameter -/

theorem paramStep_isMissingHere (req : Query) (name : String) (p : Param) :
    (paramStep req name p).isMissingHere = ((dlookup req name).isNone && p.required) := by
  unfold paramStep
  by_cases hc : ((dlookup req name).isNone && p.required) = true
  · rw [if_pos hc, hc]; rfl
  · rw [if_neg hc]
    rw [Bool.eq_false_iff.mpr hc]
    repeat' first | rfl | split

/-- C6: a parameter declared with `default='10'` and `required=False`, when
absent from the query, decodes to exactly the same result as when the
caller explicitly passes the raw string `"10"` — both go through the same
`validated_value` path. -/
theorem param_default_decodes_like_explicit (p : Param) (n : String) (q : Query)
    (hreq : p.required = false) (hdef : p.default = some "10")
    (habs : dlookup q n = Option.none) :
    requireParams [(n, p)] q = requireParams [(n, p)] ((n, ["10"]) :: q) := by
  have hlook : dlookup ((n, ["10"]) :: q) n = some ["10"] := by simp [dlookup]
  have hstep : paramStep ((n, ["10"]) :: q) n p = paramStep q n p := by
    cases hm : p.many <;>
      cases hv : validatedValue p "10" <;>
        simp [paramStep, habs, hlook, hreq, hdef, defaultTruthy, hm, hv, mapExcept,
          Except.map]
  unfold requireParams requireParamsAux
  rw [hstep]
  cases hs : paramStep q n p with
  | missingHere =>
      have := paramStep_isMissingHere q n p
      rw [hs, hreq, Bool.and_false] at this
      exact absurd this (by simp [ParamStep.isMissingHere])
  | skip => rfl
  | keep v => rfl
  | invalid m => rfl
  | crashed e => rfl

/-- Witness for C6: an `IntParam` with `default='10'`, absent from an empty
query, decodes identically to an explicit `"10"`, namely to the integer
`10`. -/
theorem param_default_decodes_like_explicit_witness :
    requireParams [("foo", intParamDefault10)] [] =
      requireParams [("foo", intParamDefault10)] [("foo", ["10"])] ∧
    requireParams [("foo", intParamDefault10)] [] = .ok [("foo", .int 10)] :=
  ⟨param_default_decodes_like_explicit intParamDefault10 "foo" [] rfl rfl rfl, rfl⟩

/-- Parameters whose step neither raises nor aborts are consumed by the
`require_params` loop without changing the outcome of the remainder. -/
theorem requireParamsAux_ok_prefix (registry : List (String × Param)) (req : Query)
    (pre : List (String × Param)) :
    ∀ acc, (∀ np ∈ pre, (paramStep req np.1 np.2).isOk = true) →
      ∀ l, ∃ acc', requireParamsAux registry req (pre ++ l) acc =
        requireParamsAux registry req l acc' := by
  induction pre with
  | nil => intro acc _ l; exact ⟨acc, rfl⟩
  | cons np rest ih =>
      intro acc hok l
      obtain ⟨name, p⟩ := np
      have hstep : (paramStep req name p).isOk = true := hok _ (List.mem_cons_self _ _)
      have htail : ∀ np ∈ rest, (paramStep req np.1 np.2).isOk = true :=
        fun np h => hok np (List.mem_cons_of_mem _ h)
      cases hs : paramStep req name p with
      | skip =>
          obtain ⟨acc', ha⟩ := ih acc htail l
          exact ⟨acc', by simpa only [List.cons_append, requireParamsAux, hs] using ha⟩
      | keep v =>
          obtain ⟨acc', ha⟩ := ih (acc ++ [(name, v)]) htail l
          exact ⟨acc', by simpa only [List.cons_append, requireParamsAux, hs] using ha⟩
      | missingHere => rw [hs] at hstep; exact absurd hstep (by simp [ParamStep.isOk])
      | invalid m => rw [hs] at hstep; exact absurd hstep (by simp [ParamStep.isOk])
      | crashed e => rw [hs] at hstep; exact absurd hstep (by simp [ParamStep.isOk])

/-- C5 (amended): writing the registry as `pre ++ (n₀, p₀) :: post` where
every parameter of `pre` decodes without a problem,

* if `p₀` is required and absent, `require_params` raises the single
  aggregated missing-parameters failure naming every absent required
  parameter of the whole registry together (`n₀` among them), and
* if `p₀`'s decoding fails, `require_params` aborts immediately with the
  single-parameter invalid failure naming only `n₀`

— the first problem in registry order decides which failure is raised. -/
theorem require_params_first_problem_wins (registry : List (String × Param)) (req : Query)
    (pre : List (String × Param)) (n₀ : String) (p₀ : Param) (post : List (String × Param))
    (hsplit : registry = pre ++ (n₀, p₀) :: post)
    (hpre : ∀ np ∈ pre, (paramStep req np.1 np.2).isOk = true) :
    (p₀.required = true → dlookup req n₀ = Option.none →
        requireParams registry req = .missingParams (missingNames registry req) ∧
        n₀ ∈ missingNames registry req) ∧
    (∀ m, paramStep req n₀ p₀ = .invalid m →
        requireParams registry req = .invalidParam n₀ m) := by
  subst hsplit
  obtain ⟨acc', hacc⟩ :=
    requireParamsAux_ok_prefix (pre ++ (n₀, p₀) :: post) req pre [] hpre ((n₀, p₀) :: post)
  have hrw : requireParams (pre ++ (n₀, p₀) :: post) req =
      requireParamsAux (pre ++ (n₀, p₀) :: post) req ((n₀, p₀) :: post) acc' := hacc
  constructor
  · intro hr habs
    have hstep : paramStep req n₀ p₀ = .missingHere := by
      simp [paramStep, habs, hr]
    constructor
    · rw [hrw]
      simp only [requireParamsAux, hstep]
    · have hmem : (n₀, p₀) ∈ pre ++ (n₀, p₀) :: post := by simp
      have hfil : (n₀, p₀) ∈
          (pre ++ (n₀, p₀) :: post).filter
            (fun np => np.2.required && (dlookup req np.1).isNone) :=
        List.mem_filter.mpr ⟨hmem, by simp [hr, habs]⟩
      simpa [missingNames] using List.mem_map_of_mem Prod.fst hfil
  · intro m hinv
    rw [hrw]
    simp only [requireParamsAux, hinv]

/-- Witness for C5 (amended): registry `[ok, m1 (required), m2 (required)]`
with query `ok=v` raises one aggregated failure naming both `m1` and `m2`. -/
theorem require_params_first_problem_wins_witness :
    requireParams c5wRegistry c5wQuery = .missingParams ["m1", "m2"] ∧
    "m1" ∈ missingNames c5wRegistry c5wQuery :=
  (require_params_first_problem_wins c5wRegistry c5wQuery
      [("ok", stringParam)] "m1" { stringParam with required := true }
      [("m2", { stringParam with required := true })]
      rfl
      (by intro np hnp; rw [List.mem_singleton] at hnp; subst hnp; rfl)).1 rfl rfl

/-! ### Further dictionary lemmas (for C7, C9, C10) -/

theorem dlookup_mem {α : Type} (m : List (String × α)) (k : String) (v : α)
    (h : dlookup m k = some v) : (k, v) ∈ m := by
  induction m with
  | nil => simp [dlookup] at h
  | cons kv rest ih =>
      obtain ⟨k₀, v₀⟩ := kv
      simp only [dlookup] at h
      by_cases hk : k₀ = k
      · rw [if_pos hk] at h
        injection h with h
        subst hk
        subst h
        exact List.mem_cons_self _ _
      · rw [if_neg hk] at h
        exact List.mem_cons_of_mem _ (ih h)

/-- Looking a key up in a dictionary all of whose values equal their keys
gives back the key. -/
theorem dlookup_odFromList_diag (l : List (String × String))
    (hdiag : ∀ kv ∈ l, kv.1 = kv.2) (k : String) :
    (dlookup (odFromList l) k).getD k = k := by
  cases h : dlookup (odFromList l) k with
  | none => rfl
  | some v =>
      have hkv := hdiag _ (mem_odFromList _ _ (dlookup_mem _ _ _ h))
      simp only at hkv
      simp [← hkv]

/-- On a serializer whose fields all leave `source` unset, the `sources`
dict of `validate` is the field registry itself (given duplicate-free
names). -/
theorem sourcesOf_eq_self (fields : Fields)
    (hsrc : ∀ nf ∈ fields, nf.2.source = Option.none)
    (hnodup : (dkeys fields).Nodup) : sourcesOf fields = fields := by
  have hmap : fields.map (fun nf => (sourceName nf.1 nf.2, nf.2)) = fields := by
    have : ∀ nf ∈ fields, (sourceName nf.1 nf.2, nf.2) = nf := by
      intro nf hnf
      have := hsrc nf hnf
      simp [sourceName, this]
    calc fields.map (fun nf => (sourceName nf.1 nf.2, nf.2))
        = fields.map id := List.map_congr_left this
      _ = fields := List.map_id fields
  rw [sourcesOf, hmap]
  exact odFromList_eq_self fields hnodup

/-- On a serializer whose fields all leave `source` unset, the error-time
remapping of `validate` is the identity. -/
theorem remapName_id (fields : Fields)
    (hsrc : ∀ nf ∈ fields, nf.2.source = Option.none) (n : String) :
    remapName fields n = n := by
  unfold remapName sourcesToFieldNames
  apply dlookup_odFromList_diag
  intro kv hkv
  obtain ⟨nf, hnf, hkv⟩ := List.mem_map.mp hkv
  have hs := hsrc nf hnf
  subst hkv
  simp [sourceName, hs]

/-- C7: with `partial=True` the `missing` collection of `validate` is
computed empty for every serializer and internal object — `validate` never
raises a missing-field error in partial mode — while with `partial=False`
an omitted non-read-only field (on a serializer with default sources and
distinct names) is reported under its name in the raised error's `missing`
collection. -/
theorem partial_suppresses_missing (fields : Fields) (d : ObjDict) :
    missingPart fields d true = [] ∧
    (∀ err, validate fields d true = .error err → err.missing = []) ∧
    (∀ n f, (n, f) ∈ fields →
      (∀ nf ∈ fields, nf.2.source = Option.none) →
      (dkeys fields).Nodup →
      f.read_only = false →
      dlookup d n = Option.none →
      (validate fields d false).crashed = false →
      ∃ err, validate fields d false = .error err ∧ n ∈ err.missing) := by
  refine ⟨by simp [missingPart], ?_, ?_⟩
  · intro err h
    have hmp : missingPart fields d true = [] := by simp [missingPart]
    unfold validate at h
    cases hforb : forbiddenPart (sourcesOf fields) d with
    | error e => simp only [hforb] at h; exact ValidateResult.noConfusion h
    | ok forbidden =>
        simp only [hforb] at h
        cases hinv : invalidPart (sourcesOf fields) d with
        | error e => simp only [hinv] at h; exact ValidateResult.noConfusion h
        | ok invalid =>
            simp only [hinv] at h
            by_cases hcond :
                ((missingPart fields d true).isEmpty &&
                  forbidden.isEmpty && invalid.isEmpty) = true
            · rw [if_pos hcond] at h; exact absurd h (by simp)
            · rw [if_neg hcond] at h
              injection h with h
              rw [← h]
              simp [hmp]
  · intro n f hmem hsrc hnodup hro habs hcrash
    have hsources : sourcesOf fields = fields := sourcesOf_eq_self fields hsrc hnodup
    have hmiss : n ∈ missingPart fields d false := by
      unfold missingPart
      rw [hsources]
      have hfil : (n, f) ∈ fields.filter
          (fun sf => !false && (dlookup d sf.1).isNone && !sf.2.read_only) :=
        List.mem_filter.mpr ⟨hmem, by simp [habs, hro]⟩
      exact List.mem_map_of_mem Prod.fst hfil
    unfold validate at hcrash ⊢
    cases hforb : forbiddenPart (sourcesOf fields) d with
    | error e =>
        simp only [hforb] at hcrash
        exact absurd hcrash (by simp [ValidateResult.crashed])
    | ok forbidden =>
        simp only [hforb] at hcrash ⊢
        cases hinv : invalidPart (sourcesOf fields) d with
        | error e =>
            simp only [hinv] at hcrash
            exact absurd hcrash (by simp [ValidateResult.crashed])
        | ok invalid =>
            simp only [hinv] at hcrash ⊢
            have hne : (missingPart fields d false).isEmpty = false := by
              cases hmp : missingPart fields d false with
              | nil => rw [hmp] at hmiss; simp at hmiss
              | cons a l => rfl
            rw [if_neg (by simp [hne])]
            refine ⟨_, rfl, ?_⟩
            simp only []
            rw [show remapName fields = fun x => x from funext (remapName_id fields hsrc)]
            simpa using hmiss

/-! ### C9: the `from_representation` coercion loop -/

/-- The `failed` dict of the coercion loop ends up empty exactly when it
started empty and no declared present field fails coercion. -/
theorem coerceLoop_failed_empty (fields : Fields) (rep : ObjDict) :
    ∀ d fl d' fl', coerceLoop fields rep d fl = .ok (d', fl') →
      fl'.isEmpty = (fl.isEmpty && !repHasFailure fields rep) := by
  induction fields with
  | nil =>
      intro d fl d' fl' h
      injection h with h
      injection h with h1 h2
      subst h2
      simp [repHasFailure]
  | cons nf rest ih =>
      intro d fl d' fl' h
      obtain ⟨name, f⟩ := nf
      simp only [coerceLoop] at h
      cases hl : dlookup rep name with
      | none =>
          simp only [hl] at h
          rw [ih _ _ _ _ h]
          simp [repHasFailure, List.any_cons, hl]
      | some raw =>
          simp only [hl] at h
          cases hc : f.fromRepr raw with
          | ok v =>
              simp only [hc] at h
              rw [ih _ _ _ _ h]
              simp [repHasFailure, List.any_cons, hl, hc, coercionFailed]
          | error e =>
              simp only [hc] at h
              by_cases hve : e.isValueError = true
              · rw [if_pos hve] at h
                rw [ih _ _ _ _ h]
                simp [repHasFailure, List.any_cons, hl, hc, coercionFailed, hve]
              · rw [if_neg hve] at h
                exact Except.noConfusion h

/-- Keys already present survive the coercion loop. -/
theorem coerceLoop_mono (fields : Fields) (rep : ObjDict) :
    ∀ d fl d' fl', coerceLoop fields rep d fl = .ok (d', fl') →
      ∀ k, k ∈ dkeys d → k ∈ dkeys d' := by
  induction fields with
  | nil =>
      intro d fl d' fl' h k hk
      injection h with h
      injection h with h1 h2
      subst h1
      exact hk
  | cons nf rest ih =>
      intro d fl d' fl' h k hk
      obtain ⟨name, f⟩ := nf
      simp only [coerceLoop] at h
      cases hl : dlookup rep name with
      | none =>
          simp only [hl] at h
          exact ih _ _ _ _ h k hk
      | some raw =>
          simp only [hl] at h
          cases hc : f.fromRepr raw with
          | ok v =>
              simp only [hc] at h
              exact ih _ _ _ _ h k ((mem_dkeys_odInsert _ _ _ _).mpr (Or.inl hk))
          | error e =>
              simp only [hc] at h
              by_cases hve : e.isValueError = true
              · rw [if_pos hve] at h
                exact ih _ _ _ _ h k hk
              · rw [if_neg hve] at h
                exact Except.noConfusion h

/-- Every key of the internal object built by the coercion loop is either
inherited from the accumulator or is the source name of a declared field
present in the representation. -/
theorem coerceLoop_keys (fields : Fields) (rep : ObjDict) :
    ∀ d fl d' fl', coerceLoop fields rep d fl = .ok (d', fl') →
      ∀ k, k ∈ dkeys d' → k ∈ dkeys d ∨
        ∃ nf ∈ fields, (dlookup rep nf.1).isSome ∧ k = sourceName nf.1 nf.2 := by
  induction fields with
  | nil =>
      intro d fl d' fl' h k hk
      injection h with h
      injection h with h1 h2
      subst h1
      exact Or.inl hk
  | cons nf rest ih =>
      intro d fl d' fl' h k hk
      obtain ⟨name, f⟩ := nf
      simp only [coerceLoop] at h
      cases hl : dlookup rep name with
      | none =>
          simp only [hl] at h
          rcases ih _ _ _ _ h k hk with hk | ⟨nf', hnf', hp⟩
          · exact Or.inl hk
          · exact Or.inr ⟨nf', List.mem_cons_of_mem _ hnf', hp⟩
      | some raw =>
          simp only [hl] at h
          cases hc : f.fromRepr raw with
          | ok v =>
              simp only [hc] at h
              rcases ih _ _ _ _ h k hk with hk | ⟨nf', hnf', hp⟩
              · rcases (mem_dkeys_odInsert _ _ _ _).mp hk with hk | hk
                · exact Or.inl hk
                · exact Or.inr ⟨(name, f), List.mem_cons_self _ _, by simp [hl, hk]⟩
              · exact Or.inr ⟨nf', List.mem_cons_of_mem _ hnf', hp⟩
          | error e =>
              simp only [hc] at h
              by_cases hve : e.isValueError = true
              · rw [if_pos hve] at h
                rcases ih _ _ _ _ h k hk with hk | ⟨nf', hnf', hp⟩
                · exact Or.inl hk
                · exact Or.inr ⟨nf', List.mem_cons_of_mem _ hnf', hp⟩
              · rw [if_neg hve] at h
                exact Except.noConfusion h

/-- Every declared field present in the representation whose coercion
succeeds ends up in the internal object under its source name. -/
theorem coerceLoop_includes (fields : Fields) (rep : ObjDict) :
    ∀ d fl d' fl', coerceLoop fields rep d fl = .ok (d', fl') →
      ∀ name f, (name, f) ∈ fields → ∀ raw v, dlookup rep name = some raw →
        f.fromRepr raw = .ok v → sourceName name f ∈ dkeys d' := by
  induction fields with
  | nil =>
      intro d fl d' fl' h name f hmem
      simp at hmem
  | cons nf rest ih =>
      intro d fl d' fl' h name f hmem raw v hl hc
      obtain ⟨name₀, f₀⟩ := nf
      rcases List.mem_cons.mp hmem with hmem | hmem
      · injection hmem with h1 h2
        subst h1
        subst h2
        simp only [coerceLoop, hl, hc] at h
        exact coerceLoop_mono rest rep _ _ _ _ h _
          ((mem_dkeys_odInsert _ _ _ _).mpr (Or.inr rfl))
      · simp only [coerceLoop] at h
        cases hl₀ : dlookup rep name₀ with
        | none =>
            simp only [hl₀] at h
            exact ih _ _ _ _ h name f hmem raw v hl hc
        | some raw₀ =>
            simp only [hl₀] at h
            cases hc₀ : f₀.fromRepr raw₀ with
            | ok v₀ =>
                simp only [hc₀] at h
                exact ih _ _ _ _ h name f hmem raw v hl hc
            | error e =>
                simp only [hc₀] at h
                by_cases hve : e.isValueError = true
                · rw [if_pos hve] at h
                  exact ih _ _ _ _ h name f hmem raw v hl hc
                · rw [if_neg hve] at h
                  exact Except.noConfusion h

/-- C9 (amended): whenever no coercion propagates a non-`ValueError`
exception, `from_representation` raises its structured error exactly when
some declared field present in the representation fails coercion with a
`ValueError`; on success, every key of the returned internal object is the
source name of a declared present field (unknown representation keys are
silently dropped), and every declared present field whose coercion
succeeds — read-only fields included — appears under its source name. -/
theorem from_representation_raises_iff_coercion_failure (fields : Fields) (rep : ObjDict)
    (hnocrash : (fromRepresentation fields rep).crashed = false) :
    ((fromRepresentation fields rep).raised = repHasFailure fields rep) ∧
    (∀ d, fromRepresentation fields rep = .ok d →
      ∀ k ∈ dkeys d, ∃ nf ∈ fields, (dlookup rep nf.1).isSome ∧ k = sourceName nf.1 nf.2) ∧
    (∀ name f, (name, f) ∈ fields → ∀ raw v, dlookup rep name = some raw →
      f.fromRepr raw = .ok v → ∀ d, fromRepresentation fields rep = .ok d →
      sourceName name f ∈ dkeys d) := by
  unfold fromRepresentation at hnocrash ⊢
  cases hcl : coerceLoop fields rep [] [] with
  | error e =>
      simp only [hcl] at hnocrash
      exact absurd hnocrash (by simp [DeserResult.crashed])
  | ok pair =>
      obtain ⟨d0, fl0⟩ := pair
      simp only [hcl] at hnocrash ⊢
      have hfl := coerceLoop_failed_empty fields rep [] [] d0 fl0 hcl
      simp only [List.isEmpty_nil, Bool.true_and] at hfl
      by_cases hfe : fl0.isEmpty = true
      · rw [if_pos hfe]
        have hrhf : repHasFailure fields rep = false := by
          rw [hfe] at hfl
          simpa using hfl.symm
        refine ⟨by simp [DeserResult.raised, hrhf], ?_, ?_⟩
        · intro d hd k hk
          injection hd with hd
          subst hd
          rcases coerceLoop_keys fields rep [] [] d0 fl0 hcl k hk with hk | hk
          · simp [dkeys] at hk
          · exact hk
        · intro name f hmem raw v hl hc d hd
          injection hd with hd
          subst hd
          exact coerceLoop_includes fields rep [] [] d0 fl0 hcl name f hmem raw v hl hc
      · rw [if_neg hfe] at hnocrash ⊢
        have hrhf : repHasFailure fields rep = true := by
          rcases Bool.eq_false_or_eq_true (repHasFailure fields rep) with h | h
          · exact h
          · rw [h, Bool.not_false] at hfl
            exact absurd hfl hfe
        cases hval : validate fields d0 false with
        | crash e =>
            simp only [hval] at hnocrash
            exact absurd hnocrash (by simp [DeserResult.crashed])
        | ok =>
            simp only [hval]
            exact ⟨by simp [DeserResult.raised, hrhf],
              fun d hd => DeserResult.noConfusion hd,
              fun name f hmem raw v hl hc d hd => DeserResult.noConfusion hd⟩
        | error dv =>
            simp only [hval]
            exact ⟨by simp [DeserResult.raised, hrhf],
              fun d hd => DeserResult.noConfusion hd,
              fun name f hmem raw v hl hc d hd => DeserResult.noConfusion hd⟩

/-- Witness for C9 (amended): the serializer `{name, num}` against
`{"num": "abc"}` — the only present field fails coercion, no crash, and
`from_representation` raises. -/
theorem from_representation_raises_iff_coercion_failure_witness :
    (fromRepresentation aggFields [("num", .str "abc")]).raised =
      repHasFailure aggFields [("num", .str "abc")] ∧
    (fromRepresentation aggFields [("num", .str "abc")]).crashed = false ∧
    repHasFailure aggFields [("num", .str "abc")] = true :=
  ⟨(from_representation_raises_iff_coercion_failure aggFields
      [("num", .str "abc")] rfl).1, rfl, rfl⟩

/-! ### C10: shape of `to_representation` output -/

/-- Keys of a successful `to_representation` run: the accumulator's keys
followed by the declared field names. -/
theorem toRepresentationAux_keys (fields : Fields) (obj : PyVal) :
    ∀ acc r, toRepresentationAux fields obj acc = .ok r →
      (∀ k ∈ dkeys fields, k ∉ dkeys acc) → (dkeys fields).Nodup →
      dkeys r = dkeys acc ++ dkeys fields := by
  induction fields with
  | nil =>
      intro acc r h _ _
      injection h with h
      subst h
      simp [dkeys]
  | cons nf rest ih =>
      intro acc r h hd hn
      obtain ⟨name, f⟩ := nf
      simp only [toRepresentationAux] at h
      cases he : toReprEntry f (get_attribute obj (attrOf name f)) with
      | error e => simp only [he] at h; exact Except.noConfusion h
      | ok entry =>
          simp only [he] at h
          have hname : name ∉ dkeys acc := hd name (by simp [dkeys])
          rw [odInsert_append acc name entry hname] at h
          simp only [dkeys, List.map_cons, List.nodup_cons] at hn
          have hd' : ∀ k ∈ dkeys rest, k ∉ dkeys (acc ++ [(name, entry)]) := by
            intro k hk
            have hk' : k ∈ dkeys ((name, f) :: rest) := by
              simp only [dkeys, List.map_cons, List.mem_cons]
              right
              exact hk
            have h1 : k ∉ dkeys acc := hd k hk'
            have h2 : k ≠ name := fun he' => hn.1 (he' ▸ hk)
            simp only [dkeys, List.map_append, List.map_cons, List.map_nil,
              List.mem_append, List.mem_singleton]
            rintro (hc | hc)
            · exact h1 hc
            · exact h2 hc
          rw [ih (acc ++ [(name, entry)]) r h hd' hn.2]
          simp [dkeys]

/-- Fields outside the remaining registry do not change their entry. -/
theorem toRepresentationAux_lookup (fields : Fields) (obj : PyVal) :
    ∀ acc r, toRepresentationAux fields obj acc = .ok r →
      ∀ k, k ∉ dkeys fields → dlookup r k = dlookup acc k := by
  induction fields with
  | nil =>
      intro acc r h k _
      injection h with h
      subst h
      rfl
  | cons nf rest ih =>
      intro acc r h k hk
      obtain ⟨name, f⟩ := nf
      simp only [dkeys, List.map_cons, List.mem_cons] at hk
      push_neg at hk
      simp only [toRepresentationAux] at h
      cases he : toReprEntry f (get_attribute obj (attrOf name f)) with
      | error e => simp only [he] at h; exact Except.noConfusion h
      | ok entry =>
          simp only [he] at h
          rw [ih _ r h k (by simpa [dkeys] using hk.2)]
          exact dlookup_odInsert_ne acc k name entry (Ne.symm hk.1)

/-- A declared field whose source attribute reads as `None` contributes
`None` (or `[]` when `many`) to the representation. -/
theorem toRepresentationAux_none_entry (fields : Fields) (obj : PyVal) :
    ∀ acc r, toRepresentationAux fields obj acc = .ok r →
      (dkeys fields).Nodup →
      ∀ n f, (n, f) ∈ fields → get_attribute obj (attrOf n f) = .none →
        dlookup r n = some (if f.many then .list [] else .none) := by
  induction fields with
  | nil =>
      intro acc r h _ n f hmem
      simp at hmem
  | cons nf rest ih =>
      intro acc r h hn n f hmem hattr
      obtain ⟨name₀, f₀⟩ := nf
      simp only [toRepresentationAux] at h
      cases he : toReprEntry f₀ (get_attribute obj (attrOf name₀ f₀)) with
      | error e => simp only [he] at h; exact Except.noConfusion h
      | ok entry =>
          simp only [he] at h
          simp only [dkeys, List.map_cons, List.nodup_cons] at hn
          rcases List.mem_cons.mp hmem with hmem | hmem
          · injection hmem with h1 h2
            subst h1
            subst h2
            rw [hattr] at he
            have hentry : entry = (if f.many then PyVal.list [] else PyVal.none) := by
              have hred : toReprEntry f PyVal.none =
                  .ok (if f.many then PyVal.list [] else PyVal.none) := by
                simp [toReprEntry, isPyNone]
              rw [hred] at he
              injection he with he
              exact he.symm
            rw [toRepresentationAux_lookup rest obj _ r h n (by simpa [dkeys] using hn.1)]
            rw [dlookup_odInsert_self, hentry]
          · exact ih _ r h hn.2 n f hmem hattr

/-- Without wildcard sources, an attribute explicitly set to `None` reads
the same as an absent one, so the whole conversion is unchanged. -/
theorem toRepresentationAux_none_insensitive (fields : Fields) :
    ∀ acc m x, (∀ nf ∈ fields, attrOf nf.1 nf.2 ≠ "*") → dlookup m x = Option.none →
      toRepresentationAux fields (.dict ((x, .none) :: m)) acc =
        toRepresentationAux fields (.dict m) acc := by
  induction fields with
  | nil => intro acc m x _ _; rfl
  | cons nf rest ih =>
      intro acc m x hstar habs
      obtain ⟨name, f⟩ := nf
      have hne : ¬(attrOf name f = "*") := hstar (name, f) (List.mem_cons_self _ _)
      have hattr : get_attribute (.dict ((x, .none) :: m)) (attrOf name f) =
          get_attribute (.dict m) (attrOf name f) := by
        simp only [get_attribute, if_neg hne]
        simp only [dlookup]
        by_cases hx : x = attrOf name f
        · rw [if_pos hx, ← hx, habs]
          rfl
        · rw [if_neg hx]
      simp only [toRepresentationAux, hattr]
      cases he : toReprEntry f (get_attribute (.dict m) (attrOf name f)) with
      | error e => rfl
      | ok entry =>
          exact ih (odInsert acc name entry) m x
            (fun nf hnf => hstar nf (List.mem_cons_of_mem _ hnf)) habs

/-- C10 (amended): on a serializer with duplicate-free field names,

* a successful `to_representation` returns a dict whose keys are exactly
  the declared field names, in registry order;
* a declared field whose source attribute reads as `None` (absent or
  explicitly `None`) yields the entry `None` — or `[]` when `many`;
* provided no field resolves to the wildcard source `'*'`, an attribute
  explicitly set to `None` is indistinguishable in the output from an
  absent attribute. -/
theorem to_representation_shape (fields : Fields)
    (hnodup : (dkeys fields).Nodup) :
    (∀ obj r, toRepresentation fields obj = .ok r → dkeys r = dkeys fields) ∧
    (∀ obj n f, (n, f) ∈ fields → get_attribute obj (attrOf n f) = .none →
      ∀ r, toRepresentation fields obj = .ok r →
        dlookup r n = some (if f.many then .list [] else .none)) ∧
    (∀ m x, (∀ nf ∈ fields, attrOf nf.1 nf.2 ≠ "*") → dlookup m x = Option.none →
      toRepresentation fields (.dict ((x, .none) :: m)) =
        toRepresentation fields (.dict m)) := by
  refine ⟨?_, ?_, ?_⟩
  · intro obj r h
    have := toRepresentationAux_keys fields obj [] r h (by simp [dkeys]) hnodup
    simpa [dkeys] using this
  · intro obj n f hmem hattr r h
    exact toRepresentationAux_none_entry fields obj [] r h hnodup n f hmem hattr
  · intro m x hstar habs
    unfold toRepresentation
    exact toRepresentationAux_none_insensitive fields [] m x hstar habs

/-- Witness for C10 (amended): serializer `{a, m (many)}` against the empty
object and against `{"y": None}` — keys are exactly `[a, m]`, entries are
`None` and `[]`, and the explicit `None` attribute changes nothing. -/
theorem to_representation_shape_witness :
    toRepresentation c10Fields (.dict []) = .ok [("a", PyVal.none), ("m", PyVal.list [])] ∧
    dkeys [("a", PyVal.none), ("m", PyVal.list [])] = dkeys c10Fields ∧
    toRepresentation c10Fields (.dict [("y", PyVal.none)]) =
      toRepresentation c10Fields (.dict []) :=
  ⟨rfl,
   (to_representation_shape c10Fields (by decide)).1 (.dict [])
     [("a", PyVal.none), ("m", PyVal.list [])] rfl,
   (to_representation_shape c10Fields (by decide)).2.2 [] "y"
     (by
       intro nf hnf
       rcases List.mem_cons.mp hnf with h | h
       · subst h; decide
       · rcases List.mem_cons.mp h with h | h
         · subst h; decide
         · simp at h)
     rfl⟩

/-- Witness for C7: the one-field serializer `{x}` against the empty
internal object — `partial=True` reports nothing missing, `partial=False`
reports `x`. -/
theorem partial_suppresses_missing_witness :
    missingPart [("x", rawField)] [] true = [] ∧
    (∃ err, validate [("x", rawField)] [] false = .error err ∧ "x" ∈ err.missing) :=
  ⟨(partial_suppresses_missing [("x", rawField)] []).1,
   (partial_suppresses_missing [("x", rawField)] []).2.2 "x" rawField
     (List.mem_singleton.mpr rfl)
     (by intro nf hnf; rw [List.mem_singleton] at hnf; subst hnf; rfl)
     (by decide) rfl rfl rfl⟩

/-- C8: `BoolField.from_representation` with the default token sets maps
`'F'`, `'False'`, `'false'`, `'FALSE'` to `False` and all the claimed true
spellings to `True`, and rejects unknown tokens — but, because the source
writes the adjacent string literals `'f' '0'` (which concatenate to
`'f0'`), the one-letter token `'f'` and the string `'0'` raise `ValueError`
instead of mapping to `False`, while the accidental token `'f0'` is
accepted. -/
theorem boolfield_false_token_slip :
    boolFieldFromRepresentation (.str "F") = .ok (.bool false) ∧
    boolFieldFromRepresentation (.str "False") = .ok (.bool false) ∧
    boolFieldFromRepresentation (.str "false") = .ok (.bool false) ∧
    boolFieldFromRepresentation (.str "FALSE") = .ok (.bool false) ∧
    boolFieldFromRepresentation (.str "f") =
      .error (.valueError "bool type value must be one of \x7bvalues\x7d") ∧
    boolFieldFromRepresentation (.str "0") =
      .error (.valueError "bool type value must be one of \x7bvalues\x7d") ∧
    boolFieldFromRepresentation (.str "f0") = .ok (.bool false) ∧
    boolFieldFromRepresentation (.str "True") = .ok (.bool true) ∧
    boolFieldFromRepresentation (.str "true") = .ok (.bool true) ∧
    boolFieldFromRepresentation (.str "TRUE") = .ok (.bool true) ∧
    boolFieldFromRepresentation (.str "T") = .ok (.bool true) ∧
    boolFieldFromRepresentation (.str "t") = .ok (.bool true) ∧
    boolFieldFromRepresentation (.str "1") = .ok (.bool true) ∧
    boolFieldFromRepresentation (.str "foobar") =
      .error (.valueError "bool type value must be one of \x7bvalues\x7d") :=
  ⟨rfl, rfl, rfl, rfl, rfl, rfl, rfl, rfl, rfl, rfl, rfl, rfl, rfl, rfl⟩

/-- C1: on a representation that simultaneously omits the required field
`name`, contains the unknown key `unknown`, and gives `num` a value that
coerces but fails its `min_value` validator, a single call to
`from_representation` raises nothing at all: every present field coerces,
so `failed` stays empty, `validate` is never invoked, and the internal
object is returned.  (The repository's own test
`test_serializer_many_validation` and
`test_serializer_read_only_write_only_deserialization` expect a
`DeserializationError` from such calls.) -/
theorem from_representation_returns_despite_problems :
    fromRepresentation aggFields aggRep = .ok [("num", .int (-5))] ∧
    (fromRepresentation aggFields aggRep).raised = false :=
  ⟨rfl, rfl⟩

/-- C2: `to_representation` of a `many` field converts element-wise and in
order, but `from_representation` hands the raw entry to the field's
`from_representation` as a whole — for `StringField(many=True)` the list
`["aa", "bb"]` comes back as the single string `"['aa', 'bb']"` (Python
`str()` of the list), not as an element-wise coerced sequence.  (The
repository's own test `test_serialiser_with_field_many` expects
element-wise coercion and a `ValueError` for a non-sequence entry.) -/
theorem many_field_from_representation_not_elementwise :
    toRepresentation manyFields (.dict manyRep) =
      .ok [("up", .list [.str "aa", .str "bb"])] ∧
    fromRepresentation manyFields manyRep =
      .ok [("up", .str "['aa', 'bb']")] :=
  ⟨rfl, rfl⟩

/-- C4: `BaseField.__init__` has no `write_only` argument (the test
`test_serializer_read_only_write_only_serialization` would fail with
`TypeError` at class-definition time), and `to_representation` never skips
a declared field: on the test's serializer shape every field — including
the one the test wants write-only — appears in the output. -/
theorem to_representation_emits_every_field :
    toRepresentation rwFields (.dict [("writeonly", .str "foo"), ("readonly", .str "bar")]) =
      .ok [("readonly", .str "bar"), ("writeonly", .str "foo")] ∧
    "writeonly" ∈ dkeys [("readonly", PyVal.str "bar"), ("writeonly", PyVal.str "foo")] :=
  ⟨rfl, by decide⟩

/-- C9 (counterexample): a read-only declared field present in the
representation is coerced and INCLUDED in the internal object returned by
`from_representation` — it is not silently omitted the way unknown keys
are. -/
theorem read_only_value_kept_in_internal_object :
    fromRepresentation roFields [("ro", .str "v")] = .ok [("ro", .str "v")] ∧
    "ro" ∈ dkeys [("ro", PyVal.str "v")] :=
  ⟨rfl, by decide⟩

/-- C10 (counterexample): with a wildcard-source field (`source='*'`) the
whole object is embedded in the representation, so an attribute explicitly
set to `None` IS distinguishable in the output from an absent attribute. -/
theorem wildcard_field_distinguishes_none_from_absent :
    toRepresentation starFields (.dict [("x", .none)]) =
      .ok [("all", .dict [("x", .none)])] ∧
    toRepresentation starFields (.dict []) = .ok [("all", .dict [])] ∧
    PyVal.dict [("x", PyVal.none)] ≠ PyVal.dict [] :=
  ⟨rfl, rfl, by simp⟩

/-- C5 (counterexample): with registry `[bad (IntParam), need (required)]`
and query `bad=x`, the required parameter `need` is absent, yet
`require_params` raises the single-parameter invalid failure for `bad` —
not the aggregated missing-parameters failure the claim promises for every
such query. -/
theorem invalid_param_preempts_missing_aggregate :
    missingNames c5Registry c5Query = ["need"] ∧
    (requireParams c5Registry c5Query).isMissing = false ∧
    requireParams c5Registry c5Query =
      .invalidParam "bad" "invalid literal for int() with base 10: 'x'" :=
  ⟨rfl, by decide, rfl⟩

/-- C3: a registry built from a base class declaring `[a, b]` and a
subclass declaring `[c]` has order `[a, b, c]`; if the subclass also
redeclares `b`, the order is still `[a, b, c]` and the stored value of `b`
is the subclass's declaration. -/
theorem registry_order_and_override {α : Type} (a b c : String) (va vb vb' vc : α)
    (hab : a ≠ b) (hac : a ≠ c) (hbc : b ≠ c) :
    getFields [[(a, va), (b, vb)]] [(c, vc)] = [(a, va), (b, vb), (c, vc)] ∧
    getFields [[(a, va), (b, vb)]] [(b, vb'), (c, vc)] = [(a, va), (b, vb'), (c, vc)] := by
  constructor <;>
    simp [getFields, odFromList, odInsert, hab, hac, hbc]

/-- Witness for C3 at concrete field names and values. -/
theorem registry_order_and_override_witness :
    getFields [[("a", (1 : Nat)), ("b", 2)]] [("c", 4)] =
      [("a", 1), ("b", 2), ("c", 4)] ∧
    getFields [[("a", (1 : Nat)), ("b", 2)]] [("b", 3), ("c", 4)] =
      [("a", 1), ("b", 3), ("c", 4)] :=
  registry_order_and_override "a" "b" "c" 1 2 3 4
    (by decide) (by decide) (by decide)

end Graceful
